import Mathlib

/-
  Verification of the geoML latent-variable network core.

  Shallow embedding of src/geoml/parameter.py and src/geoml/latent.py.
  Machine floats are modelled as exact reals (for analytic formulas) or
  rationals (for purely algebraic combinator formulas); tensors are
  modelled elementwise or as functions out of Fin d, since every modelled
  operation acts elementwise or by explicit reductions over one axis.
-/

namespace GeoML

/-! ## Parameters (src/geoml/parameter.py)

The trainable-parameter classes store one variable in a transformed space
together with transformed bounds.  Each class has a refresh method that
re-projects the raw variable into the feasible region.  The refresh bodies
below are translated per entry of the stored array (all of them act
elementwise or per column). -/

/-- RealParameter.refresh (parameter.py lines 171-174): clamps the stored
transformed variable into the transformed bounds.  PositiveParameter and
CompositionalParameter inherit this body unchanged (they only override the
transform pair), so this definition covers all three classes.  Exact
rationals stand in for the float entries. -/
def RealParameter.refresh (min_transformed max_transformed v : ℚ) : ℚ :=
  max min_transformed (min max_transformed v)

/-- CircularParameter.refresh (parameter.py lines 215-219): wraps the
variable modulo the bound range, via a floor of the number of laps. -/
def CircularParameter.refresh (min_transformed max_transformed v : ℚ) : ℚ :=
  let amp := max_transformed - min_transformed
  let n_laps : ℤ := ⌊(v - min_transformed) / amp⌋
  v - n_laps * amp

/-- UnitColumnNormParameter.refresh (parameter.py lines 229-233): divides
each column by its Euclidean norm plus 1e-6.  Modelled for one column of
m entries; the transform pair of this class is the identity, so
get_value() returns the stored variable itself. -/
noncomputable def UnitColumnNormParameter.refresh (m : ℕ) (v : Fin m → ℝ) :
    Fin m → ℝ :=
  fun i => v i / (Real.sqrt (∑ j, v j ^ 2) + 1e-6)

/-! ## Uncertain-input covariance (BasicGP.covariance_matrix, latent.py 375-402)

One entry of the covariance matrix between a point x and a point y with
per-dimension variances var_x, var_y and learned per-dimension ranges.
kernelize is the external stationary kernel (a pure function of the
scaled distance). -/

/-- BasicGP.covariance_matrix (latent.py lines 375-402), one matrix entry. -/
noncomputable def BasicGP.covariance_matrix (d : ℕ) (kernelize : ℝ → ℝ)
    (ranges x y var_x var_y : Fin d → ℝ) : ℝ :=
  let total_var : Fin d → ℝ := fun j => ranges j ^ 2 + (var_x j + var_y j) / 2
  let dist : ℝ := Real.sqrt (∑ j, (x j - y j) ^ 2 / total_var j)
  let cov : ℝ := kernelize dist
  let det_x : ℝ := (∏ j, (var_x j + ranges j ^ 2)) ^ ((1 : ℝ) / 4)
  let det_y : ℝ := (∏ j, (var_y j + ranges j ^ 2)) ^ ((1 : ℝ) / 4)
  let det_2 : ℝ := Real.sqrt (∏ j, total_var j)
  cov * (det_x * det_y / det_2)

/-- BasicGP.covariance_matrix with the optional variance arguments: when a
variance is omitted (None) the source substitutes zeros (latent.py lines
378-381). -/
noncomputable def BasicGP.covariance_matrix_opt (d : ℕ) (kernelize : ℝ → ℝ)
    (ranges x y : Fin d → ℝ) (var_x var_y : Option (Fin d → ℝ)) : ℝ :=
  BasicGP.covariance_matrix d kernelize ranges x y
    (var_x.getD fun _ => 0) (var_y.getD fun _ => 0)

/-! ## BasicInput (latent.py 202-264) -/

/-- BasicInput.propagate (latent.py lines 240-242): applies the transform
to the recentered coordinates and returns the pair of the transformed
coordinates and an all-zero variance.  The x_var argument appears in the
signature but the body never reads it. -/
def BasicInput.propagate (d k : ℕ) (transform : (Fin d → ℚ) → Fin k → ℚ)
    (center x : Fin d → ℚ) (x_var : Option (Fin d → ℚ)) :
    (Fin k → ℚ) × (Fin k → ℚ) :=
  let _ := x_var
  let x_tr := transform fun i => x i - center i
  (x_tr, fun _ => 0)

/-! ## Prediction result shapes (the predict protocol)

predict(x, x_var, n_sim, seed) returns either a pair (mean, variance) or a
4-tuple (mean, variance, samples, explained_variance) whose last two slots
may hold None in the source.  Values are modelled elementwise as rationals. -/

/-- Shape of a predict return value: a Python 2-tuple or 4-tuple whose two
trailing slots can be None. -/
inductive PredictOut (α : Type) where
  | pair : α → α → PredictOut α
  | quad : α → α → Option α → Option α → PredictOut α
deriving DecidableEq

/-- One parent prediction, elementwise: posterior mean, variance, one
simulated sample value, explained variance. -/
structure ParentOut where
  mu : ℚ
  var : ℚ
  sims : ℚ
  exp_var : ℚ
deriving DecidableEq

/-- BasicInput.predict (latent.py lines 250-257), elementwise: the
deterministic transformed value with zero variance; with n_sim greater
than zero the value is tiled across the sample axis and the explained
variance is zero. -/
def BasicInput.predict (x_tr : ℚ) (n_sim : ℕ) : PredictOut ℚ :=
  if 0 < n_sim then .quad x_tr 0 (some x_tr) (some 0) else .pair x_tr 0

/-- SelectInput.predict (latent.py lines 697-703), elementwise: propagates
the parent mean and variance; with n_sim greater than zero it returns the
4-tuple (mean, variance, None, None). -/
def SelectInput.predict (mu var : ℚ) (n_sim : ℕ) : PredictOut ℚ :=
  if 0 < n_sim then .quad mu var none none else .pair mu var

/-- BasicGP.GPGradient.predict (latent.py lines 566-578), elementwise: the
body concatenates per-direction means and variances and always returns the
2-tuple (grads, grads_var), never reading n_sim. -/
def GPGradient.predict (grads grads_var : ℚ) (n_sim : ℕ) : PredictOut ℚ :=
  let _ := n_sim
  .pair grads grads_var

/-- LinearCombination.predict (latent.py lines 738-764), elementwise:
weighted sum of the parent outputs (weights squared for the variance
terms).  The body unconditionally unpacks four values from every parent
and returns a 4-tuple; it never branches on n_sim. -/
def LinearCombination.predict (weights : List ℚ) (parent_outputs : List ParentOut)
    (n_sim : ℕ) : PredictOut ℚ :=
  let _ := n_sim
  let z := weights.zip parent_outputs
  .quad ((z.map fun p => p.1 * p.2.mu).sum)
        ((z.map fun p => p.1 ^ 2 * p.2.var).sum)
        (some ((z.map fun p => p.1 * p.2.sims).sum))
        (some ((z.map fun p => p.1 ^ 2 * p.2.exp_var).sum))

/-- ProductOfExperts.predict (latent.py lines 812-845), elementwise:
precision-style weights (explained_variance / (variance + 1e-6)) + 1e-6,
renormalized to sum to one, then a weighted combination; returns a 4-tuple
when n_sim is positive and a 2-tuple otherwise. -/
def ProductOfExperts.predict (parent_outputs : List ParentOut) (n_sim : ℕ) :
    PredictOut ℚ :=
  let w_raw := parent_outputs.map fun p => p.exp_var / (p.var + 1e-6) + 1e-6
  let s := w_raw.sum
  let weights := w_raw.map fun w => w / s
  let z := weights.zip parent_outputs
  let w_mu := (z.map fun p => p.1 * p.2.mu).sum
  let w_var := (z.map fun p => p.1 * p.2.var).sum
  let w_sims := (z.map fun p => p.1 * p.2.sims).sum
  let w_exp_var := (z.map fun p => p.1 * p.2.exp_var).sum
  if 0 < n_sim then .quad w_mu w_var (some w_sims) (some w_exp_var)
  else .pair w_mu w_var

/-- Multiply.predict (latent.py lines 974-1005), elementwise: exact
second-moment product formulas over the parent outputs. -/
def Multiply.predict (parent_outputs : List ParentOut) : ParentOut where
  mu := (parent_outputs.map ParentOut.mu).prod
  var := (parent_outputs.map fun p => p.mu ^ 2 + p.var).prod
         - (parent_outputs.map fun p => p.mu ^ 2).prod
  sims := (parent_outputs.map ParentOut.sims).prod
  exp_var := (parent_outputs.map fun p => p.mu ^ 2 + p.var + p.exp_var).prod
             - (parent_outputs.map fun p => p.mu ^ 2).prod
             - ((parent_outputs.map fun p => p.mu ^ 2 + p.var).prod
                - (parent_outputs.map fun p => p.mu ^ 2).prod)

/-! ## Combination weights (claim C9) -/

/-- CompositionalParameter._back_transform (parameter.py lines 210-211):
softmax.  LinearCombination reads its weight vector through this
back-transform (latent.py line 743). -/
noncomputable def CompositionalParameter.back_transform (n : ℕ) (v : Fin n → ℝ) : Fin n → ℝ :=
  fun i => Real.exp (v i) / ∑ j, Real.exp (v j)

/-- ProductOfExperts.predict weights (latent.py lines 833-834):
(explained_variance / (variance + 1e-6)) + 1e-6, renormalized across the
parent axis. -/
def ProductOfExperts.weights (k : ℕ) (var exp_var : Fin k → ℚ) : Fin k → ℚ :=
  fun i => (exp_var i / (var i + 1e-6) + 1e-6)
    / ∑ j, (exp_var j / (var j + 1e-6) + 1e-6)

/-- ProductOfExperts.predict_directions weights (latent.py lines 862-863):
explained_variance / (variance + 1e-6), renormalized, without the extra
1e-6 summand used in predict. -/
def ProductOfExperts.direction_weights (k : ℕ) (var exp_var : Fin k → ℚ) :
    Fin k → ℚ :=
  fun i => (exp_var i / (var i + 1e-6)) / ∑ j, (exp_var j / (var j + 1e-6))

/-! ## Per-branch seeds (claim C3)

Each multi-parent combinator calls parent i as
p.predict(x, x_var, n_sim, S) for some seed expression S built from its
own seed argument.  The functions below are exactly those seed
expressions. -/

/-- Seed passed to parent i by Add.predict (latent.py line 1071). -/
def Add.branch_seed (seed : ℤ × ℤ) (i : ℕ) : ℤ × ℤ := (seed.1 + i, seed.2)

/-- Seed passed to parent i by Multiply.predict (latent.py line 982). -/
def Multiply.branch_seed (seed : ℤ × ℤ) (i : ℕ) : ℤ × ℤ := (seed.1 + i, seed.2)

/-- Seed passed to parent i by LinearCombination.predict (latent.py line 747). -/
def LinearCombination.branch_seed (seed : ℤ × ℤ) (i : ℕ) : ℤ × ℤ :=
  (seed.1 + i, seed.2)

/-- Seed passed to parent i by ProductOfExperts.predict (latent.py line 822). -/
def ProductOfExperts.branch_seed (seed : ℤ × ℤ) (i : ℕ) : ℤ × ℤ :=
  (seed.1 + i, seed.2)

/-- Seed passed to parent i by Concatenate.predict (latent.py line 302):
the unmodified seed argument, identical for every parent. -/
def Concatenate.branch_seed (seed : ℤ × ℤ) (i : ℕ) : ℤ × ℤ :=
  let _ := i
  seed

/-- Seed passed to parent i by LatentNetworkOutput.predict (latent.py line
168): the unmodified seed argument, identical for every parent. -/
def LatentNetworkOutput.branch_seed (seed : ℤ × ℤ) (i : ℕ) : ℤ × ℤ :=
  let _ := i
  seed

/-- Seed passed to both parents by ApplyLinearTrendGP.predict (latent.py
lines 1211-1214): the unmodified seed argument. -/
def ApplyLinearTrendGP.branch_seed (seed : ℤ × ℤ) (i : ℕ) : ℤ × ℤ :=
  let _ := i
  seed

/-! ## The latent-network DAG (claim C1)

Nodes are arena indices 0..n-1; a node is constructed strictly after its
parents, so every parent index is smaller than the child index (this is
exactly the construction order of the Python classes and gives
acyclicity).  Three traversal styles of get_unique_parents occur in the
source: the root returns the empty list (latent.py lines 85-86), a
functional node returns its single parent consed onto that parent's list
(lines 96-97), and an operation node - including LatentNetworkOutput -
collects all parents plus their lists and deduplicates through a Python
set (lines 128-132 and 150-154). -/

/-- Traversal style of a node in the DAG. -/
inductive NodeKind where
  | root
  | functional
  | operation
deriving DecidableEq

/-- A latent network: node kinds and parent lists over arena indices, with
parents constructed before children. -/
structure Network (n : ℕ) where
  kind : Fin n → NodeKind
  parents : Fin n → List (Fin n)
  parents_lt : ∀ i : Fin n, ∀ j ∈ parents i, (j : ℕ) < (i : ℕ)
  root_no_parents : ∀ i : Fin n, kind i = .root → parents i = []
  functional_one_parent : ∀ i : Fin n, kind i = .functional → (parents i).length = 1

/-- get_unique_parents, fuel-indexed so that the recursion is structural;
any fuel above the node index gives the real value, because parent indices
strictly decrease.  The body is the source body: parents first, then each
parent's own list, deduplicated only in the operation (set) case. -/
def get_unique_parents_aux {n : ℕ} (net : Network n) : ℕ → Fin n → List (Fin n)
  | 0, _ => []
  | fuel + 1, i =>
    let rec_lists := (net.parents i).map (get_unique_parents_aux net fuel)
    let all_parents := net.parents i ++ rec_lists.flatten
    match net.kind i with
    | .operation => all_parents.dedup
    | _ => all_parents

/-- get_unique_parents of a node (fuel n is always sufficient). -/
def get_unique_parents {n : ℕ} (net : Network n) (i : Fin n) : List (Fin n) :=
  get_unique_parents_aux net n i

/-- The set of ancestors of a node: all nodes reachable through parent
edges.  Defined independently of any traversal order, as a Finset. -/
def ancestors_aux {n : ℕ} (net : Network n) : ℕ → Fin n → Finset (Fin n)
  | 0, _ => ∅
  | fuel + 1, i =>
    (net.parents i).toFinset ∪
      ((net.parents i).map (ancestors_aux net fuel)).foldr (· ∪ ·) ∅

/-- The ancestor set of a node (fuel n is always sufficient). -/
def ancestors {n : ℕ} (net : Network n) (i : Fin n) : Finset (Fin n) :=
  ancestors_aux net n i

/-- LatentNetworkOutput.kl_divergence (latent.py lines 196-199): the sum
of the per-node kl_divergence values over get_unique_parents.  kl_self j
is the value returned by node j's own kl_divergence method (zero for every
combinator, the analytic KL value for a GP node). -/
def LatentNetworkOutput.kl_divergence {n : ℕ} (net : Network n)
    (kl_self : Fin n → ℚ) (i : Fin n) : ℚ :=
  ((get_unique_parents net i).map kl_self).sum

/-- A concrete diamond network: node 0 is the root, nodes 1 and 2 are
functional nodes over it, node 3 is a LatentNetworkOutput-style operation
over both, so node 0 is reachable via two paths. -/
def diamond_network : Network 4 where
  kind := fun i =>
    if (i : ℕ) = 0 then .root else if (i : ℕ) = 3 then .operation else .functional
  parents := fun i =>
    if (i : ℕ) = 1 then [0] else if (i : ℕ) = 2 then [0]
    else if (i : ℕ) = 3 then [1, 2] else []
  parents_lt := by decide
  root_no_parents := by decide
  functional_one_parent := by decide

/-! ## Refresh as a state transformer (claim C10)

Only the inducing-point slots matter for the frame claim: each node holds
an optional inducing_points array and an optional
inducing_points_variance array (both None until first populated,
latent.py lines 32-33).  A network-wide refresh visits nodes bottom-up
(parents always before children, which over the arena is increasing index
order) and runs each node's own refresh body once. -/

/-- The two inducing-point state slots of a latent node. -/
structure LVState where
  inducing_points : Option (List ℚ)
  inducing_points_variance : Option (List ℚ)
deriving DecidableEq

/-- Elementwise sum of a stack of equally-sized vectors
(tf.reduce_sum of a stack along axis 0). -/
def sum_vecs : List (List ℚ) → List ℚ
  | [] => []
  | [v] => v
  | v :: rest => List.zipWith (· + ·) v (sum_vecs rest)

/-- Node kinds distinguished by what their refresh body writes. -/
inductive OpKind where
  | gp_like
  | concat_op
  | add_op
  | multiply_op
  | poe_op
deriving DecidableEq

/-- The effect of one node's refresh body on its own state, given the
already-refreshed parent states.  Multiply.refresh (latent.py lines
970-972) and ProductOfExperts.refresh (lines 808-810) only recurse into
the parents and write nothing; Add.refresh (lines 1047-1061) and
Concatenate.refresh (lines 284-293) populate both slots from the parents
when every parent's inducing_points is present; a GP-like node writes its
freshly computed posterior (value abstracted as gp_ip, gp_ip_var). -/
def local_refresh (k : OpKind) (gp_ip gp_ip_var : List ℚ) (own : LVState)
    (ps : List LVState) : LVState :=
  match k with
  | .gp_like => ⟨some gp_ip, some gp_ip_var⟩
  | .multiply_op => own
  | .poe_op => own
  | .add_op =>
    if ps.all fun p => p.inducing_points.isSome then
      ⟨some (sum_vecs (ps.map fun p => p.inducing_points.getD [])),
       some (sum_vecs (ps.map fun p => p.inducing_points_variance.getD []))⟩
    else own
  | .concat_op =>
    if ps.all fun p => p.inducing_points.isSome then
      ⟨some (ps.map fun p => p.inducing_points.getD []).flatten,
       some (ps.map fun p => p.inducing_points_variance.getD []).flatten⟩
    else own

/-- Network-wide refresh: every node's refresh body runs after its
parents' (arena indices increase from parents to children, so a single
increasing pass is the bottom-up recursion of the source). -/
def network_refresh (n : ℕ) (kind : Fin n → OpKind)
    (parents : Fin n → List (Fin n)) (gp_ip gp_ip_var : Fin n → List ℚ)
    (s : Fin n → LVState) : Fin n → LVState :=
  (List.finRange n).foldl
    (fun st i =>
      Function.update st i
        (local_refresh (kind i) (gp_ip i) (gp_ip_var i) (st i)
          ((parents i).map st)))
    s

/-- Witness data: two zero-variance parent predictions for Multiply. -/
def two_zero_variance_parents : List ParentOut := [⟨2, 0, 0, 0⟩, ⟨3, 0, 0, 0⟩]

/-- Witness data: kinds of a two-node network, a GP below a Multiply. -/
def tiny_kinds : Fin 2 → OpKind :=
  fun i => if (i : ℕ) = 0 then .gp_like else .multiply_op

/-- Witness data: parent lists of the two-node network. -/
def tiny_parents : Fin 2 → List (Fin 2) :=
  fun i => if (i : ℕ) = 0 then [] else [0]

/-! ## Helper lemmas -/

/-- Summing a function over the Finset of a duplicate-free list is the
same as summing it down the list. -/
theorem list_sum_toFinset {α : Type} [DecidableEq α] (l : List α)
    (h : l.Nodup) (f : α → ℚ) : ∑ x ∈ l.toFinset, f x = (l.map f).sum := by
  rw [← List.toFinset_eq h]
  rfl

/-- Deduplicating a list does not change its Finset of elements. -/
theorem list_dedup_toFinset {α : Type} [DecidableEq α] (l : List α) :
    l.dedup.toFinset = l.toFinset := by
  ext a
  simp [List.mem_dedup]

/-- The Finset of a flattened list of lists is the fold of the unions. -/
theorem list_toFinset_flatten {α : Type} [DecidableEq α] (ls : List (List α)) :
    ls.flatten.toFinset = (ls.map List.toFinset).foldr (· ∪ ·) ∅ := by
  induction ls with
  | nil => rfl
  | cons a ls ih => simp [List.toFinset_append, ih]

/-! ## Claim C3 -/

/-- Claim C3 as stated is false: it claims every fan-out combinator
(including Concatenate, LatentNetworkOutput and ApplyLinearTrendGP) passes
each parent branch a distinct seed, but those three pass the unmodified
base seed to every branch, so with base seed (0, 0) branches 0 and 1
receive the same seed. -/
theorem claim_C3_counterexample :
    Concatenate.branch_seed (0, 0) 0 = Concatenate.branch_seed (0, 0) 1
    ∧ LatentNetworkOutput.branch_seed (0, 0) 0
        = LatentNetworkOutput.branch_seed (0, 0) 1
    ∧ ApplyLinearTrendGP.branch_seed (0, 0) 0
        = ApplyLinearTrendGP.branch_seed (0, 0) 1 :=
  ⟨rfl, rfl, rfl⟩

/-- Claim C3, amended: Add, Multiply, LinearCombination and
ProductOfExperts derive a distinct seed per parent branch by adding the
branch index to the first seed component, so no two of their branches
share a seed; Concatenate, LatentNetworkOutput and ApplyLinearTrendGP
instead pass the unmodified base seed to every branch. -/
theorem claim_C3_distinct_seeds :
    (∀ (seed : ℤ × ℤ) (i j : ℕ), i ≠ j →
      Add.branch_seed seed i ≠ Add.branch_seed seed j)
    ∧ (∀ (seed : ℤ × ℤ) (i j : ℕ), i ≠ j →
      Multiply.branch_seed seed i ≠ Multiply.branch_seed seed j)
    ∧ (∀ (seed : ℤ × ℤ) (i j : ℕ), i ≠ j →
      LinearCombination.branch_seed seed i ≠ LinearCombination.branch_seed seed j)
    ∧ (∀ (seed : ℤ × ℤ) (i j : ℕ), i ≠ j →
      ProductOfExperts.branch_seed seed i ≠ ProductOfExperts.branch_seed seed j)
    ∧ (∀ (seed : ℤ × ℤ) (i : ℕ), Concatenate.branch_seed seed i = seed)
    ∧ (∀ (seed : ℤ × ℤ) (i : ℕ), LatentNetworkOutput.branch_seed seed i = seed)
    ∧ (∀ (seed : ℤ × ℤ) (i : ℕ), ApplyLinearTrendGP.branch_seed seed i = seed) := by
  have key : ∀ (seed : ℤ × ℤ) (i j : ℕ), i ≠ j →
      ((seed.1 + (i : ℤ), seed.2) : ℤ × ℤ) ≠ (seed.1 + (j : ℤ), seed.2) := by
    intro seed i j hij h
    apply hij
    have h1 : seed.1 + (i : ℤ) = seed.1 + (j : ℤ) := congrArg Prod.fst h
    omega
  exact ⟨key, key, key, key, fun _ _ => rfl, fun _ _ => rfl, fun _ _ => rfl⟩

/-- Witness for C3 at concrete seeds and branch indices. -/
theorem claim_C3_witness :
    Add.branch_seed (0, 0) 0 ≠ Add.branch_seed (0, 0) 1
    ∧ Multiply.branch_seed (5, 7) 1 ≠ Multiply.branch_seed (5, 7) 2
    ∧ LinearCombination.branch_seed (0, 0) 0 ≠ LinearCombination.branch_seed (0, 0) 2
    ∧ ProductOfExperts.branch_seed (3, 4) 0 ≠ ProductOfExperts.branch_seed (3, 4) 1 :=
  ⟨claim_C3_distinct_seeds.1 (0, 0) 0 1 (by decide),
   claim_C3_distinct_seeds.2.1 (5, 7) 1 2 (by decide),
   claim_C3_distinct_seeds.2.2.1 (0, 0) 0 2 (by decide),
   claim_C3_distinct_seeds.2.2.2.1 (3, 4) 0 1 (by decide)⟩

/-! ## Claim C4 -/

/-- Claim C4 as stated is false: it claims a provided input variance is
tracked through BasicInput.propagate to the returned variance, but with
x_var = 1 supplied the returned variance is still 0 (the body returns
zeros regardless of x_var). -/
theorem claim_C4_counterexample :
    (BasicInput.propagate 1 1 (fun v => v) (fun _ => 0) (fun _ => 0)
        (some fun _ => 1)).2 0 = 0
    ∧ (1 : ℚ) ≠ 0 :=
  ⟨rfl, by norm_num⟩

/-- Claim C4, amended: BasicInput.propagate applies the transform to the
recentered coordinates and returns that as the mean, with a variance that
is identically zero; the supplied x_var is ignored (the result equals the
result with x_var omitted). -/
theorem claim_C4_propagate (d k : ℕ) (transform : (Fin d → ℚ) → Fin k → ℚ)
    (center x : Fin d → ℚ) (x_var : Option (Fin d → ℚ)) :
    BasicInput.propagate d k transform center x x_var
      = (transform fun i => x i - center i, fun _ => 0)
    ∧ BasicInput.propagate d k transform center x x_var
      = BasicInput.propagate d k transform center x none :=
  ⟨rfl, rfl⟩

/-! ## Claim C5 -/

/-- Claim C5 as stated is false: with n_sim = 1, SelectInput.predict
returns the 4-tuple (mean, variance, None, None) - the samples and
explained-variance components are not populated - and GPGradient.predict
returns a 2-tuple. -/
theorem claim_C5_counterexample :
    SelectInput.predict 0 0 1 = .quad 0 0 none none
    ∧ ¬ (∃ s e : ℚ, SelectInput.predict 0 0 1 = .quad 0 0 (some s) (some e))
    ∧ GPGradient.predict 0 0 1 = .pair 0 0 := by
  refine ⟨rfl, ?_, rfl⟩
  rintro ⟨s, e, h⟩
  simp [SelectInput.predict] at h

/-- Claim C5, amended: BasicInput.predict returns a fully populated
4-tuple when n_sim is positive and a 2-tuple when n_sim = 0, and
ProductOfExperts.predict does the same; but SelectInput.predict returns
(mean, variance, None, None) when n_sim is positive, GPGradient.predict
always returns a 2-tuple, and LinearCombination.predict always returns a
4-tuple regardless of n_sim. -/
theorem claim_C5_predict_shapes :
    (∀ (x : ℚ) (n_sim : ℕ), 0 < n_sim →
      BasicInput.predict x n_sim = .quad x 0 (some x) (some 0))
    ∧ (∀ x : ℚ, BasicInput.predict x 0 = .pair x 0)
    ∧ (∀ (mu var : ℚ) (n_sim : ℕ), 0 < n_sim →
      SelectInput.predict mu var n_sim = .quad mu var none none)
    ∧ (∀ mu var : ℚ, SelectInput.predict mu var 0 = .pair mu var)
    ∧ (∀ (g gv : ℚ) (n_sim : ℕ), GPGradient.predict g gv n_sim = .pair g gv)
    ∧ (∀ (w : List ℚ) (ps : List ParentOut) (n_sim : ℕ),
      ∃ a b s e, LinearCombination.predict w ps n_sim = .quad a b (some s) (some e))
    ∧ (∀ (ps : List ParentOut) (n_sim : ℕ), 0 < n_sim →
      ∃ a b s e, ProductOfExperts.predict ps n_sim = .quad a b (some s) (some e))
    ∧ (∀ ps : List ParentOut, ∃ a b, ProductOfExperts.predict ps 0 = .pair a b) := by
  refine ⟨?_, fun x => rfl, ?_, fun mu var => rfl, fun g gv n => rfl,
    fun w ps n => ⟨_, _, _, _, rfl⟩, ?_, fun ps => ⟨_, _, rfl⟩⟩
  · intro x n hn
    simp only [BasicInput.predict]
    rw [if_pos hn]
  · intro mu var n hn
    simp only [SelectInput.predict]
    rw [if_pos hn]
  · intro ps n hn
    simp only [ProductOfExperts.predict]
    rw [if_pos hn]
    exact ⟨_, _, _, _, rfl⟩

/-- Witness for C5 at concrete inputs. -/
theorem claim_C5_witness :
    BasicInput.predict 5 1 = .quad 5 0 (some 5) (some 0)
    ∧ SelectInput.predict 1 2 3 = .quad 1 2 none none
    ∧ (∃ a b s e, ProductOfExperts.predict two_zero_variance_parents 2
        = .quad a b (some s) (some e)) :=
  ⟨claim_C5_predict_shapes.1 5 1 (by decide),
   claim_C5_predict_shapes.2.2.1 1 2 3 (by decide),
   claim_C5_predict_shapes.2.2.2.2.2.2.1 two_zero_variance_parents 2 (by decide)⟩

/-! ## Claim C6 -/

/-- Claim C6 as stated is false for UnitColumnNormParameter: its refresh
divides by (column norm + 1e-6), so refreshing the single-entry column
holding 2 once gives 2 / (2 + 1e-6), and refreshing again changes the
value (a second pass divides by (2 / (2 + 1e-6)) + 1e-6, which is not 1). -/
theorem claim_C6_counterexample :
    UnitColumnNormParameter.refresh 1 (UnitColumnNormParameter.refresh 1 fun _ => 2)
      ≠ UnitColumnNormParameter.refresh 1 fun _ => 2 := by
  have habs : ∀ v : Fin 1 → ℝ,
      UnitColumnNormParameter.refresh 1 v = fun i => v i / (|v 0| + 1e-6) := by
    intro v
    funext i
    simp only [UnitColumnNormParameter.refresh, Fin.sum_univ_one,
      Real.sqrt_sq_eq_abs]
  intro hEq
  have h0 := congrFun hEq 0
  rw [habs (fun _ => 2), habs] at h0
  simp only [show |(2 : ℝ)| = 2 from abs_of_pos (by norm_num)] at h0
  rw [abs_of_pos (by norm_num : (0 : ℝ) < 2 / (2 + 1e-6))] at h0
  norm_num at h0

/-- Claim C6, amended: refresh is idempotent for RealParameter,
PositiveParameter and CompositionalParameter (whose shared refresh body
clamps into the transformed bounds), and for CircularParameter whenever
the transformed bounds are distinct; the unit-column-norm classes are only
approximately idempotent because of the 1e-6 guard in the normalizer. -/
theorem claim_C6_refresh_idempotent :
    (∀ min_t max_t v : ℚ,
      RealParameter.refresh min_t max_t (RealParameter.refresh min_t max_t v)
        = RealParameter.refresh min_t max_t v)
    ∧ (∀ min_t max_t v : ℚ, max_t - min_t ≠ 0 →
      CircularParameter.refresh min_t max_t (CircularParameter.refresh min_t max_t v)
        = CircularParameter.refresh min_t max_t v) := by
  constructor
  · intro a b v
    unfold RealParameter.refresh
    rcases le_total a b with h | h <;>
      rcases le_total v b with h1 | h1 <;>
      rcases le_total v a with h2 | h2 <;>
      simp [max_def, min_def] <;> split_ifs <;> linarith
  · intro a b v hamp
    simp only [CircularParameter.refresh]
    have hfr : (v - ⌊(v - a) / (b - a)⌋ * (b - a) - a) / (b - a)
        = Int.fract ((v - a) / (b - a)) := by
      rw [Int.fract]
      field_simp
      ring
    rw [hfr, Int.floor_fract]
    push_cast
    ring

/-- Witness for C6 at concrete bounds and values. -/
theorem claim_C6_witness :
    RealParameter.refresh 0 1 (RealParameter.refresh 0 1 5)
      = RealParameter.refresh 0 1 5
    ∧ CircularParameter.refresh 0 1 (CircularParameter.refresh 0 1 (7 / 2))
      = CircularParameter.refresh 0 1 (7 / 2) :=
  ⟨claim_C6_refresh_idempotent.1 0 1 5,
   claim_C6_refresh_idempotent.2 0 1 (7 / 2) (by norm_num)⟩

/-! ## Claim C7 -/

/-- Claim C7 as stated is false for UnitColumnNormParameter: its refresh
never reads the bounds, so a parameter constructed with transformed bounds
[-1/10, 1/10] and raw single-entry column 2 refreshes to
2 / (2 + 1e-6), which exceeds the upper bound 1/10. -/
theorem claim_C7_counterexample :
    (1 / 10 : ℝ) < UnitColumnNormParameter.refresh 1 (fun _ => 2) 0 := by
  have hval : UnitColumnNormParameter.refresh 1 (fun _ => 2) 0 = 2 / (2 + 1e-6) := by
    simp only [UnitColumnNormParameter.refresh, Fin.sum_univ_one]
    rw [show ((2 : ℝ)) ^ 2 = 2 ^ 2 by norm_num,
      Real.sqrt_sq (by norm_num : (0 : ℝ) ≤ 2)]
  rw [hval]
  norm_num

/-- Claim C7, amended: after refresh the stored value lies within the
transformed bounds for the clamp-based classes (RealParameter,
PositiveParameter, CompositionalParameter, given min at most max) and for
CircularParameter (within [min, max) given min below max), while
UnitColumnNormParameter.refresh ignores the bounds entirely and only
guarantees every entry has absolute value below 1 (so containment holds
for the [-1, 1] bounds used in the repository, not for arbitrary bounds). -/
theorem claim_C7_refresh_bounds :
    (∀ min_t max_t v : ℚ, min_t ≤ max_t →
      min_t ≤ RealParameter.refresh min_t max_t v
      ∧ RealParameter.refresh min_t max_t v ≤ max_t)
    ∧ (∀ min_t max_t v : ℚ, min_t < max_t →
      min_t ≤ CircularParameter.refresh min_t max_t v
      ∧ CircularParameter.refresh min_t max_t v < max_t)
    ∧ (∀ (m : ℕ) (v : Fin m → ℝ) (i : Fin m),
      |UnitColumnNormParameter.refresh m v i| < 1) := by
  refine ⟨?_, ?_, ?_⟩
  · intro a b v h
    exact ⟨le_max_left _ _, max_le h (min_le_left _ _)⟩
  · intro a b v h
    have hamp : (0 : ℚ) < b - a := by linarith
    have hval : CircularParameter.refresh a b v
        = a + (b - a) * Int.fract ((v - a) / (b - a)) := by
      simp only [CircularParameter.refresh]
      rw [Int.fract]
      field_simp
      ring
    rw [hval]
    constructor
    · nlinarith [Int.fract_nonneg ((v - a) / (b - a))]
    · nlinarith [Int.fract_lt_one ((v - a) / (b - a))]
  · intro m v i
    have hs : (0 : ℝ) ≤ Real.sqrt (∑ j, v j ^ 2) := Real.sqrt_nonneg _
    have hvi : |v i| ≤ Real.sqrt (∑ j, v j ^ 2) := by
      rw [← Real.sqrt_sq_eq_abs]
      exact Real.sqrt_le_sqrt
        (Finset.single_le_sum (fun j _ => sq_nonneg (v j)) (Finset.mem_univ i))
    have hden : (0 : ℝ) < Real.sqrt (∑ j, v j ^ 2) + 1e-6 := by
      have : (0 : ℝ) < (1e-6 : ℝ) := by norm_num
      linarith
    simp only [UnitColumnNormParameter.refresh]
    rw [abs_div, abs_of_pos hden, div_lt_one hden]
    have : (0 : ℝ) < (1e-6 : ℝ) := by norm_num
    linarith

/-- Witness for C7 at concrete bounds and values. -/
theorem claim_C7_witness :
    ((0 : ℚ) ≤ RealParameter.refresh 0 1 5 ∧ RealParameter.refresh 0 1 5 ≤ 1)
    ∧ ((0 : ℚ) ≤ CircularParameter.refresh 0 1 (7 / 2)
        ∧ CircularParameter.refresh 0 1 (7 / 2) < 1)
    ∧ |UnitColumnNormParameter.refresh 1 (fun _ => 2) 0| < 1 :=
  ⟨claim_C7_refresh_bounds.1 0 1 5 (by norm_num),
   claim_C7_refresh_bounds.2.1 0 1 (7 / 2) (by norm_num),
   claim_C7_refresh_bounds.2.2 1 (fun _ => 2) 0⟩

/-! ## Claim C8 -/

/-- Claim C8: Multiply.predict returns mean equal to the product of the
parent means and variance equal to the product of (mean squared plus
variance) minus the product of squared means; in particular with all
parent variances zero the combined variance is 0 and the combined mean is
the product of the parent means. -/
theorem claim_C8_multiply_moments (ps : List ParentOut) :
    (Multiply.predict ps).mu = (ps.map ParentOut.mu).prod
    ∧ (Multiply.predict ps).var
        = (ps.map fun p => p.mu ^ 2 + p.var).prod - (ps.map fun p => p.mu ^ 2).prod
    ∧ ((∀ p ∈ ps, p.var = 0) →
        (Multiply.predict ps).var = 0
        ∧ (Multiply.predict ps).mu = (ps.map ParentOut.mu).prod) := by
  refine ⟨rfl, rfl, fun h => ⟨?_, rfl⟩⟩
  have hmaps : (ps.map fun p => p.mu ^ 2 + p.var) = ps.map fun p => p.mu ^ 2 :=
    List.map_congr_left fun p hp => by rw [h p hp, add_zero]
  simp [Multiply.predict, hmaps]

/-- Witness for C8: two zero-variance parents with means 2 and 3. -/
theorem claim_C8_witness :
    (Multiply.predict two_zero_variance_parents).var = 0
    ∧ (Multiply.predict two_zero_variance_parents).mu
        = (two_zero_variance_parents.map ParentOut.mu).prod := by
  refine (claim_C8_multiply_moments two_zero_variance_parents).2.2 ?_
  intro p hp
  simp only [two_zero_variance_parents, List.mem_cons, List.mem_singleton,
    List.not_mem_nil, or_false] at hp
  rcases hp with rfl | rfl <;> rfl

/-! ## Claim C9 -/

/-- Claim C9 as stated is false for ProductOfExperts.predict_directions:
its weights lack the extra 1e-6 summand, so when every parent reports zero
explained variance (as RadialTrend.predict_directions always does) the
unnormalized weights sum to zero and the renormalized weights sum to 0,
not 1 (the float code divides zero by zero). -/
theorem claim_C9_counterexample :
    ∑ i : Fin 2, ProductOfExperts.direction_weights 2 (fun _ => 0) (fun _ => 0) i = 0
    ∧ (0 : ℚ) ≠ 1 := by
  constructor
  · simp [ProductOfExperts.direction_weights]
  · norm_num

/-- Claim C9, amended: the softmax-back-transformed LinearCombination
weight vector sums to 1 for any nonempty parent list; the
ProductOfExperts.predict weights sum to 1 for any batch whose variances
and explained variances are nonnegative; the
ProductOfExperts.predict_directions weights sum to 1 only when the
unnormalized precision weights have nonzero sum. -/
theorem claim_C9_weights_sum (n k : ℕ) (v : Fin n → ℝ) (var exp_var : Fin k → ℚ)
    (hn : 0 < n) (hk : 0 < k)
    (hvar : ∀ i, 0 ≤ var i) (hev : ∀ i, 0 ≤ exp_var i) :
    ∑ i, CompositionalParameter.back_transform n v i = 1
    ∧ ∑ i, ProductOfExperts.weights k var exp_var i = 1
    ∧ ((∑ j, exp_var j / (var j + 1e-6)) ≠ 0 →
        ∑ i, ProductOfExperts.direction_weights k var exp_var i = 1) := by
  refine ⟨?_, ?_, ?_⟩
  · unfold CompositionalParameter.back_transform
    rw [← Finset.sum_div]
    apply div_self
    have hpos : 0 < ∑ j, Real.exp (v j) :=
      Finset.sum_pos (fun j _ => Real.exp_pos _)
        (by simpa [Finset.univ_nonempty_iff] using Fin.pos_iff_nonempty.mp hn)
    exact ne_of_gt hpos
  · unfold ProductOfExperts.weights
    rw [← Finset.sum_div]
    apply div_self
    have hpos : 0 < ∑ j, (exp_var j / (var j + 1e-6) + 1e-6) := by
      apply Finset.sum_pos
      · intro j _
        have h1 : (0 : ℚ) < var j + 1e-6 := by
          have := hvar j
          norm_num
          linarith
        have h2 : (0 : ℚ) ≤ exp_var j / (var j + 1e-6) :=
          div_nonneg (hev j) (le_of_lt h1)
        norm_num
        linarith
      · simpa [Finset.univ_nonempty_iff] using Fin.pos_iff_nonempty.mp hk
    exact ne_of_gt hpos
  · intro hdir
    unfold ProductOfExperts.direction_weights
    rw [← Finset.sum_div]
    exact div_self hdir

/-- Witness for C9: the predict weights are exercised at the all-zero
batch (variances and explained variances all 0), the case the 1e-6 guard
exists for and where the direction weights fail; the direction-weight
conclusion is exercised at unit variances and explained variances. -/
theorem claim_C9_witness :
    ∑ i, CompositionalParameter.back_transform 2 (fun _ => 0) i = 1
    ∧ ∑ i, ProductOfExperts.weights 2 (fun _ => 0) (fun _ => 0) i = 1
    ∧ ∑ i, ProductOfExperts.direction_weights 2 (fun _ => 1) (fun _ => 1) i = 1 :=
  ⟨(claim_C9_weights_sum 2 2 (fun _ => 0) (fun _ => 0) (fun _ => 0)
      (by norm_num) (by norm_num) (fun _ => le_refl 0) (fun _ => le_refl 0)).1,
   (claim_C9_weights_sum 2 2 (fun _ => 0) (fun _ => 0) (fun _ => 0)
      (by norm_num) (by norm_num) (fun _ => le_refl 0) (fun _ => le_refl 0)).2.1,
   (claim_C9_weights_sum 2 2 (fun _ => 0) (fun _ => 1) (fun _ => 1)
      (by norm_num) (by norm_num) (fun _ => by norm_num) (fun _ => by norm_num)).2.2
     (by norm_num [Fin.sum_univ_two])⟩

/-! ## Claim C2 -/

/-- Claim C2: with both input variances zero (or omitted), the
uncertain-input covariance reduces to the plain stationary kernel value
at the range-scaled distance: the normalization factor collapses to 1. -/
theorem claim_C2_zero_variance_reduces (d : ℕ) (kernelize : ℝ → ℝ)
    (ranges x y : Fin d → ℝ) (h : ∀ j, ranges j ≠ 0) :
    BasicGP.covariance_matrix d kernelize ranges x y (fun _ => 0) (fun _ => 0)
      = kernelize (Real.sqrt (∑ j, (x j - y j) ^ 2 / ranges j ^ 2))
    ∧ BasicGP.covariance_matrix_opt d kernelize ranges x y none none
      = kernelize (Real.sqrt (∑ j, (x j - y j) ^ 2 / ranges j ^ 2)) := by
  have hP : 0 < ∏ j, ranges j ^ 2 :=
    Finset.prod_pos fun j _ => by
      have := h j
      positivity
  have key : BasicGP.covariance_matrix d kernelize ranges x y
      (fun _ => 0) (fun _ => 0)
      = kernelize (Real.sqrt (∑ j, (x j - y j) ^ 2 / ranges j ^ 2)) := by
    simp only [BasicGP.covariance_matrix, add_zero, zero_add, zero_div]
    have hfac : (∏ j, ranges j ^ 2) ^ ((1 : ℝ) / 4)
        * (∏ j, ranges j ^ 2) ^ ((1 : ℝ) / 4)
        / Real.sqrt (∏ j, ranges j ^ 2) = 1 := by
      rw [← Real.rpow_add hP, Real.sqrt_eq_rpow]
      norm_num
      exact div_self (ne_of_gt (Real.rpow_pos_of_pos hP _))
    rw [hfac, mul_one]
  exact ⟨key, key⟩

/-- Witness for C2: one dimension, unit range, a concrete kernel shape. -/
theorem claim_C2_witness :
    BasicGP.covariance_matrix 1 (fun t => t + 3) (fun _ => 1) (fun _ => 2)
        (fun _ => 0) (fun _ => 0) (fun _ => 0)
      = (Real.sqrt (∑ j : Fin 1,
          ((fun _ => (2 : ℝ)) j - (fun _ => (0 : ℝ)) j) ^ 2
            / ((fun _ => (1 : ℝ)) j) ^ 2)) + 3 :=
  (claim_C2_zero_variance_reduces 1 (fun t => t + 3) (fun _ => 1) (fun _ => 2)
    (fun _ => 0) (fun _ => one_ne_zero)).1

/-! ## Claim C10 -/

/-- A single bottom-up refresh pass never touches the state of a node
whose refresh body writes nothing (helper for C10). -/
theorem network_refresh_skips_nonwriting {n : ℕ} (kind : Fin n → OpKind)
    (parents : Fin n → List (Fin n)) (gp_ip gp_ip_var : Fin n → List ℚ)
    (j : Fin n) (hj : kind j = .multiply_op ∨ kind j = .poe_op) :
    ∀ (l : List (Fin n)) (st : Fin n → LVState),
      (l.foldl
        (fun st i =>
          Function.update st i
            (local_refresh (kind i) (gp_ip i) (gp_ip_var i) (st i)
              ((parents i).map st)))
        st) j = st j := by
  intro l
  induction l with
  | nil => intro st; rfl
  | cons a l ih =>
    intro st
    rw [List.foldl_cons, ih]
    by_cases haj : a = j
    · subst haj
      rw [Function.update_same]
      rcases hj with h | h <;> rw [h] <;> rfl
    · rw [Function.update_noteq (fun hja => haj hja.symm)]

/-- Claim C10: Multiply.refresh and ProductOfExperts.refresh write none of
the node's own state (so both inducing-point slots survive any
network-wide refresh unchanged, in particular staying None), while
Add.refresh and Concatenate.refresh populate both slots whenever every
parent's inducing_points is present. -/
theorem claim_C10_refresh_frame :
    (∀ (gp_ip gp_ip_var : List ℚ) (own : LVState) (ps : List LVState),
      local_refresh .multiply_op gp_ip gp_ip_var own ps = own)
    ∧ (∀ (gp_ip gp_ip_var : List ℚ) (own : LVState) (ps : List LVState),
      local_refresh .poe_op gp_ip gp_ip_var own ps = own)
    ∧ (∀ (n : ℕ) (kind : Fin n → OpKind) (parents : Fin n → List (Fin n))
        (gp_ip gp_ip_var : Fin n → List ℚ) (s : Fin n → LVState) (j : Fin n),
      kind j = .multiply_op ∨ kind j = .poe_op →
      network_refresh n kind parents gp_ip gp_ip_var s j = s j)
    ∧ (∀ (gp_ip gp_ip_var : List ℚ) (own : LVState) (ps : List LVState),
      (∀ p ∈ ps, p.inducing_points.isSome) →
      (local_refresh .add_op gp_ip gp_ip_var own ps).inducing_points.isSome
      ∧ (local_refresh .add_op gp_ip gp_ip_var own ps).inducing_points_variance.isSome
      ∧ (local_refresh .concat_op gp_ip gp_ip_var own ps).inducing_points.isSome
      ∧ (local_refresh .concat_op gp_ip gp_ip_var own ps).inducing_points_variance.isSome) := by
  refine ⟨fun _ _ _ _ => rfl, fun _ _ _ _ => rfl, ?_, ?_⟩
  · intro n kind parents gp_ip gp_ip_var s j hj
    exact network_refresh_skips_nonwriting kind parents gp_ip gp_ip_var j hj _ s
  · intro gp_ip gp_ip_var own ps h
    have hall : (ps.all fun p => p.inducing_points.isSome) = true :=
      List.all_eq_true.mpr h
    refine ⟨?_, ?_, ?_, ?_⟩ <;> simp [local_refresh, hall]

/-- Witness for C10: a two-node network (a GP feeding a Multiply) starting
from all-None state; after the network-wide refresh the Multiply node is
still all-None. -/
theorem claim_C10_witness :
    network_refresh 2 tiny_kinds tiny_parents (fun _ => [1]) (fun _ => [0])
      (fun _ => ⟨none, none⟩) 1 = ⟨none, none⟩ :=
  claim_C10_refresh_frame.2.2.1 2 tiny_kinds tiny_parents
    (fun _ => [1]) (fun _ => [0]) (fun _ => ⟨none, none⟩) 1 (Or.inl (by decide))

/-! ## Claim C1 -/

/-- With any fuel above the node index, the traversal list of
get_unique_parents collects exactly the ancestor set (helper for C1). -/
theorem get_unique_parents_aux_toFinset {n : ℕ} (net : Network n) :
    ∀ (fuel : ℕ) (i : Fin n), (i : ℕ) < fuel →
      (get_unique_parents_aux net fuel i).toFinset = ancestors_aux net fuel i := by
  intro fuel
  induction fuel with
  | zero => intro i hi; exact absurd hi (Nat.not_lt_zero _)
  | succ fuel ih =>
    intro i hi
    have hmap : ((net.parents i).map (get_unique_parents_aux net fuel)).map
          List.toFinset
        = (net.parents i).map (ancestors_aux net fuel) := by
      rw [List.map_map]
      exact List.map_congr_left fun j hj =>
        ih j (lt_of_lt_of_le (net.parents_lt i j hj) (Nat.lt_succ_iff.mp hi))
    cases hk : net.kind i with
    | operation =>
      simp only [get_unique_parents_aux, hk, ancestors_aux, list_dedup_toFinset,
        List.toFinset_append, list_toFinset_flatten, hmap]
    | root =>
      simp only [get_unique_parents_aux, hk, ancestors_aux,
        List.toFinset_append, list_toFinset_flatten, hmap]
    | functional =>
      simp only [get_unique_parents_aux, hk, ancestors_aux,
        List.toFinset_append, list_toFinset_flatten, hmap]

/-- The traversal list of an operation-style node is duplicate-free,
because the source passes it through a Python set (helper for C1). -/
theorem get_unique_parents_aux_nodup {n : ℕ} (net : Network n) (fuel : ℕ)
    (i : Fin n) (h : net.kind i = .operation) (hf : fuel ≠ 0) :
    (get_unique_parents_aux net fuel i).Nodup := by
  cases fuel with
  | zero => exact absurd rfl hf
  | succ f =>
    simp only [get_unique_parents_aux, h]
    exact List.nodup_dedup _

/-- Claim C1: LatentNetworkOutput.kl_divergence equals the sum of the
per-node kl_divergence values over the set of distinct ancestors of the
output (each doubly-reachable ancestor counted exactly once), and any
duplicate-free enumeration of that ancestor set - in any order - sums to
the same value. -/
theorem claim_C1_kl_deduplication {n : ℕ} (net : Network n)
    (kl_self : Fin n → ℚ) (i : Fin n) (h : net.kind i = .operation) :
    LatentNetworkOutput.kl_divergence net kl_self i
      = ∑ j ∈ ancestors net i, kl_self j
    ∧ ∀ l : List (Fin n), l.Nodup → l.toFinset = ancestors net i →
        (l.map kl_self).sum = LatentNetworkOutput.kl_divergence net kl_self i := by
  have htf : (get_unique_parents net i).toFinset = ancestors net i :=
    get_unique_parents_aux_toFinset net n i i.isLt
  have hnd : (get_unique_parents net i).Nodup :=
    get_unique_parents_aux_nodup net n i h (Nat.pos_iff_ne_zero.mp i.pos)
  have hmain : LatentNetworkOutput.kl_divergence net kl_self i
      = ∑ j ∈ ancestors net i, kl_self j := by
    rw [← htf, list_sum_toFinset _ hnd]
    rfl
  refine ⟨hmain, fun l hnl htl => ?_⟩
  rw [← list_sum_toFinset l hnl, htl]
  exact hmain.symm

/-- Witness for C1: the diamond network, whose output node 3 reaches node
0 via two paths; the KL sum counts nodes 0, 1, 2 once each, and the
explicitly reordered duplicate-free enumeration [2, 0, 1] gives the same
sum. -/
theorem claim_C1_witness :
    LatentNetworkOutput.kl_divergence diamond_network
        (fun j => ((j : ℕ) : ℚ) + 1) 3
      = ∑ j ∈ ancestors diamond_network 3, (((j : ℕ) : ℚ) + 1)
    ∧ ([2, 0, 1].map fun j : Fin 4 => ((j : ℕ) : ℚ) + 1).sum
      = LatentNetworkOutput.kl_divergence diamond_network
          (fun j => ((j : ℕ) : ℚ) + 1) 3 := by
  have h := claim_C1_kl_deduplication diamond_network
    (fun j => ((j : ℕ) : ℚ) + 1) 3 (by decide)
  exact ⟨h.1, h.2 [2, 0, 1] (by decide) (by decide)⟩

end GeoML
